import Mathlib

/-!
Verification of the strategy/execution pipeline of an event-driven
algorithmic-trading core (message bus, strategy engine, risk service,
portfolio store, option execution service).

The Python source is shallowly embedded: float arithmetic is modelled
exactly over `ℚ`, Python strings over Lean `String` (with structurally
recursive re-implementations of `split`, substring search, `replace`,
and lexicographic comparison, so that all definitions evaluate by kernel
reduction), Python dicts over association lists, and fallible code over
`Option`/`Except`.  External collaborators (exchange client, real time,
Black-Scholes numerics over transcendental functions) appear as explicit
oracle parameters; everything the claims quantify over is translated
from the source.
-/

/-! ## Generic list and string helpers (Python primitives) -/

/-- Insert `x` into `l` keeping the order given by the boolean relation `le`
(the elementary step of an ascending stable sort, used to model Python's
`sorted`). -/
def insertLe {α : Type} (le : α → α → Bool) (x : α) : List α → List α
  | [] => [x]
  | y :: ys => if le x y then x :: y :: ys else y :: insertLe le x ys

/-- Ascending stable sort by the boolean relation `le`; models Python's
`sorted(...)`. -/
def sortLe {α : Type} (le : α → α → Bool) : List α → List α
  | [] => []
  | x :: xs => insertLe le x (sortLe le xs)

/-- Remove duplicates from a list (the set of elements is what matters:
models Python's `set(...)` before sorting). -/
def pyDedup {α : Type} [BEq α] : List α → List α
  | [] => []
  | x :: xs =>
    let d := pyDedup xs
    if d.contains x then d else x :: d

/-- Sorted list of the distinct elements of `xs`; models Python's
`sorted(set(xs))`. -/
def sortedUnique {α : Type} [BEq α] (le : α → α → Bool) (xs : List α) : List α :=
  sortLe le (pyDedup xs)

/-- First-match lookup in an association list; models `dict.get(k)` on a
dict
represented with its overriding entry in front. -/
def lookupF {β : Type} : List (String × β) → String → Option β
  | [], _ => none
  | (k', v) :: rest, k => if k' == k then some v else lookupF rest k

/-- Overwrite-or-append update of an association list; models setting one
field of a hash (`hset key field value`). -/
def setF {β : Type} : List (String × β) → String → β → List (String × β)
  | [], k, v => [(k, v)]
  | (k', v') :: rest, k, v =>
    if k' == k then (k, v) :: rest else (k', v') :: setF rest k v

/-- Boolean list-prefix test (structural, kernel-reducible). -/
def isPrefixB {α : Type} [BEq α] : List α → List α → Bool
  | [], _ => true
  | _ :: _, [] => false
  | a :: as, b :: bs => a == b && isPrefixB as bs

/-- Boolean list-infix test. -/
def isInfixB {α : Type} [BEq α] (pat : List α) : List α → Bool
  | [] => pat.isEmpty
  | b :: bs => isPrefixB pat (b :: bs) || isInfixB pat bs

/-- Substring containment on strings; models Python's `pat in s`. -/
def strContainsSub (s pat : String) : Bool := isInfixB pat.data s.data

/-- Auxiliary single-character splitter over characters, accumulating the
current piece in reverse. -/
def splitCharAux (c : Char) : List Char → List Char → List (List Char)
  | [], acc => [acc.reverse]
  | x :: xs, acc =>
    if x == c then acc.reverse :: splitCharAux c xs []
    else splitCharAux c xs (x :: acc)

/-- Split a string at every occurrence of the character `c`; models
Python's `s.split(c)` for a one-character separator (`"".split(c) = [""]`,
separators at the ends produce empty pieces). -/
def pySplitChar (c : Char) (s : String) : List String :=
  (splitCharAux c s.data []).map List.asString

/-- Remove every occurrence of the character `c` from a string; models
Python's `s.replace(c, "")` for a one-character pattern. -/
def strRemoveChar (c : Char) (s : String) : String :=
  (s.data.filter (fun x => !(x == c))).asString

/-- Lexicographic boolean comparison of character lists by code point;
models Python's `<=` on `str`. -/
def lexLe : List Char → List Char → Bool
  | [], _ => true
  | _ :: _, [] => false
  | a :: as, b :: bs =>
    if a.toNat < b.toNat then true
    else if b.toNat < a.toNat then false
    else lexLe as bs

/-- Lexicographic boolean comparison of strings by code point. -/
def strLeB (a b : String) : Bool := lexLe a.data b.data

/-- Boolean comparison on exact rationals, modelling `<=` on Python
floats (the embedding is exact). -/
def ratLeB (a b : ℚ) : Bool := a ≤ b

/-! ### Lemmas about the helpers -/

theorem mem_insertLe {α : Type} (le : α → α → Bool) (x : α) (l : List α) (a : α) :
    a ∈ insertLe le x l ↔ a = x ∨ a ∈ l := by
  induction l with
  | nil => simp [insertLe]
  | cons y ys ih =>
    simp only [insertLe]
    by_cases h : le x y
    · simp [h]
    · simp only [h, Bool.false_eq_true, if_false, List.mem_cons, ih]
      tauto

theorem mem_sortLe {α : Type} (le : α → α → Bool) (l : List α) (a : α) :
    a ∈ sortLe le l ↔ a ∈ l := by
  induction l with
  | nil => simp [sortLe]
  | cons x xs ih => simp [sortLe, mem_insertLe, ih]

theorem pairwise_insertLe {α : Type} (le : α → α → Bool)
    (htrans : ∀ a b c, le a b = true → le b c = true → le a c = true)
    (htotal : ∀ a b, le a b = true ∨ le b a = true) (x : α) (l : List α)
    (h : l.Pairwise (fun a b => le a b = true)) :
    (insertLe le x l).Pairwise (fun a b => le a b = true) := by
  induction l with
  | nil => simp [insertLe]
  | cons y ys ih =>
    simp only [insertLe]
    by_cases hxy : le x y = true
    · rw [if_pos hxy]
      refine List.Pairwise.cons ?_ h
      intro b hb
      rcases List.mem_cons.mp hb with rfl | hb
      · exact hxy
      · exact htrans x y b hxy ((List.pairwise_cons.mp h).1 b hb)
    · rw [if_neg hxy]
      refine List.Pairwise.cons ?_ (ih (List.pairwise_cons.mp h).2)
      intro b hb
      rcases (mem_insertLe le x ys b).mp hb with heq | hb
      · subst heq
        rcases htotal b y with hx | hy
        · exact absurd hx hxy
        · exact hy
      · exact (List.pairwise_cons.mp h).1 b hb

theorem pairwise_sortLe {α : Type} (le : α → α → Bool)
    (htrans : ∀ a b c, le a b = true → le b c = true → le a c = true)
    (htotal : ∀ a b, le a b = true ∨ le b a = true) (l : List α) :
    (sortLe le l).Pairwise (fun a b => le a b = true) := by
  induction l with
  | nil => simp [sortLe]
  | cons x xs ih => exact pairwise_insertLe le htrans htotal x _ ih

/-- The head of an ascending sort is a lower bound for every element of the
original list (for a total, transitive boolean order). -/
theorem sortLe_head_le {α : Type} (le : α → α → Bool)
    (htrans : ∀ a b c, le a b = true → le b c = true → le a c = true)
    (htotal : ∀ a b, le a b = true ∨ le b a = true) (l : List α)
    (y : α) (ys : List α) (hsort : sortLe le l = y :: ys) :
    ∀ a ∈ l, le y a = true := by
  intro a ha
  have hmem : a ∈ sortLe le l := (mem_sortLe le l a).mpr ha
  rw [hsort] at hmem
  rcases List.mem_cons.mp hmem with rfl | hmem
  · rcases htotal a a with h | h <;> exact h
  · have hp := pairwise_sortLe le htrans htotal l
    rw [hsort] at hp
    exact (List.pairwise_cons.mp hp).1 a hmem

theorem mem_pyDedup {α : Type} [BEq α] [LawfulBEq α] (l : List α) (a : α) :
    a ∈ pyDedup l ↔ a ∈ l := by
  induction l with
  | nil => simp [pyDedup]
  | cons x xs ih =>
    by_cases h : x ∈ pyDedup xs
    · have hc : (pyDedup xs).contains x = true := by simpa using h
      simp only [pyDedup, hc, if_true, ih, List.mem_cons]
      constructor
      · exact Or.inr
      · rintro (rfl | hb)
        · exact ih.mp h
        · exact hb
    · have hc : (pyDedup xs).contains x = false := by simpa using h
      simp only [pyDedup, hc, Bool.false_eq_true, if_false, List.mem_cons, ih]

theorem mem_sortedUnique {α : Type} [BEq α] [LawfulBEq α]
    (le : α → α → Bool) (l : List α) (a : α) :
    a ∈ sortedUnique le l ↔ a ∈ l := by
  simp [sortedUnique, mem_sortLe, mem_pyDedup]

theorem lexLe_trans : ∀ a b c, lexLe a b = true → lexLe b c = true →
    lexLe a c = true := by
  intro a
  induction a with
  | nil => intro b c _ _; rfl
  | cons x xs ih =>
    intro b c hab hbc
    cases b with
    | nil => simp [lexLe] at hab
    | cons y ys =>
      cases c with
      | nil => simp [lexLe] at hbc
      | cons z zs =>
        simp only [lexLe] at hab hbc ⊢
        by_cases hxy : x.toNat < y.toNat
        · by_cases hyz : y.toNat < z.toNat
          · simp [Nat.lt_trans hxy hyz]
          · by_cases hzy : z.toNat < y.toNat
            · simp [hyz, hzy] at hbc
            · have : y.toNat = z.toNat := Nat.le_antisymm
                (Nat.le_of_not_lt hzy) (Nat.le_of_not_lt hyz)
              simp [this ▸ hxy]
        · by_cases hyx : y.toNat < x.toNat
          · simp [hxy, hyx] at hab
          · have hxyeq : x.toNat = y.toNat := Nat.le_antisymm
              (Nat.le_of_not_lt hyx) (Nat.le_of_not_lt hxy)
            simp only [hxy, hyx, if_false] at hab
            by_cases hyz : y.toNat < z.toNat
            · simp [hxyeq ▸ hyz]
            · by_cases hzy : z.toNat < y.toNat
              · simp [hyz, hzy] at hbc
              · simp only [hyz, hzy, if_false] at hbc
                simp [hxyeq ▸ hxy, hxyeq ▸ hzy, ih ys zs hab hbc]

theorem lexLe_total : ∀ a b, lexLe a b = true ∨ lexLe b a = true := by
  intro a
  induction a with
  | nil => intro b; left; rfl
  | cons x xs ih =>
    intro b
    cases b with
    | nil => right; rfl
    | cons y ys =>
      simp only [lexLe]
      by_cases hxy : x.toNat < y.toNat
      · left; simp [hxy]
      · by_cases hyx : y.toNat < x.toNat
        · right; simp [hyx]
        · rcases ih ys with h | h
          · left; simp [hxy, hyx, h]
          · right; simp [hxy, hyx, h]

theorem strLeB_trans (a b c : String) (hab : strLeB a b = true)
    (hbc : strLeB b c = true) : strLeB a c = true :=
  lexLe_trans a.data b.data c.data hab hbc

theorem strLeB_total (a b : String) : strLeB a b = true ∨ strLeB b a = true :=
  lexLe_total a.data b.data

theorem ratLeB_trans (a b c : ℚ) (hab : ratLeB a b = true)
    (hbc : ratLeB b c = true) : ratLeB a c = true := by
  simp only [ratLeB, decide_eq_true_eq] at *
  exact le_trans hab hbc

theorem ratLeB_total (a b : ℚ) : ratLeB a b = true ∨ ratLeB b a = true := by
  simp only [ratLeB, decide_eq_true_eq]
  exact le_total a b

theorem lookupF_setF_self {β : Type} (l : List (String × β)) (k : String) (v : β) :
    lookupF (setF l k v) k = some v := by
  induction l with
  | nil => simp [setF, lookupF]
  | cons p rest ih =>
    obtain ⟨k', v'⟩ := p
    simp only [setF]
    by_cases h : k' == k
    · simp [lookupF, h]
    · simp [lookupF, h, ih]

/-! ## Data model (messaging events, §3 of the spec)

Only the fields the verified pipeline reads are embedded; unused payload
fields (timestamps, confidence, bid/ask/volume on chain entries, ...) are
omitted. -/

/-- Order / fill side; the pydantic models restrict it to the literals
`"buy"` and `"sell"`. -/
inductive Side
  | buy
  | sell
deriving DecidableEq, Repr

/-- A JSON-ish metadata value (the claims only ever read string- and
number-valued entries of the `metadata` dict). -/
inductive MetaVal
  | mstr (s : String)
  | mnum (q : ℚ)
deriving DecidableEq, Repr

/-- A Python `metadata` dict, as an association list whose overriding
entry comes first. -/
def Metadata : Type := List (String × MetaVal)

/-- Numeric metadata entry, if present with a numeric value
(`metadata.get(k)` restricted to numbers). -/
def metaNum? (m : Metadata) (k : String) : Option ℚ :=
  match lookupF m k with
  | some (.mnum q) => some q
  | _ => none

/-- Numeric metadata entry with default, modelling `metadata.get(k, d)`
at the call sites where the value is used as a float (a present but
non-numeric value would fail pydantic validation downstream and is
defaulted here). -/
def metaNumD (m : Metadata) (k : String) (d : ℚ) : ℚ := (metaNum? m k).getD d

/-- `StrategyIntentEvent` (messages.py). -/
structure StrategyIntentEvent where
  intent_id : String
  strategy_id : String
  symbol : String
  intent_type : String
  action : String
  direction : Option Side
  quantity : ℚ
  metadata : Metadata

/-- `ExecutionCommandEvent` (messages.py): a risk-approved intent. -/
structure ExecutionCommandEvent where
  intent_id : String
  strategy_id : String
  symbol : String
  action : String
  direction : Option Side
  quantity : ℚ
  approved_by : String
  metadata : Metadata

/-- `OrderCommand` (messages.py). -/
structure OrderCommand where
  strategy_id : String
  symbol : String
  side : Side
  order_type : String
  quantity : ℚ
  price : Option ℚ
  command : String
  metadata : Metadata

/-- `OptionGreeks` (messages.py). -/
structure OptionGreeks where
  delta : ℚ
  gamma : ℚ
  theta : ℚ
  vega : ℚ
  rho : ℚ
deriving DecidableEq, Repr

/-- One entry of a volatility surface (`OptionChainData`, messages.py);
bid/ask/volume/open-interest/iv are never read by the execution
translator and are omitted. -/
structure OptionChainData where
  underlying : String
  strike : ℚ
  expiry : String
  option_type : String
  last : ℚ
deriving DecidableEq, Repr

/-- `VolatilitySurfaceEvent` (messages.py), restricted to the fields the
option execution service reads. -/
structure VolatilitySurfaceEvent where
  underlying : String
  surface_data : List OptionChainData
deriving DecidableEq, Repr

/-! ## Risk service (risk_service.py) -/

/-- Which risk check produced the result.  The source formats a human
readable message string (with interpolated percentages); the embedding
keeps only its identity. -/
inductive RiskReason
  | emptyReason
  | drawdownExceeded
  | positionRatioHigh
  | positionRatioLow
  | singleConcentration
  | grossLeverage
  | allChecksPassed
  | withinSafeLimits
deriving DecidableEq, Repr

/-- `RiskCheckResult` (risk_service.py); the `metrics` payload dict is
not read by any verified component and is omitted. -/
structure RiskCheckResult where
  approved : Bool
  reason : RiskReason
deriving DecidableEq, Repr

/-- A stored global position, as written/read through the portfolio
hash.  `greeks := none` models a JSON record without a `greeks` key. -/
structure PositionRecord where
  quantity : ℚ
  avg_price : ℚ
  unrealized_pnl : ℚ
  strategy_id : Option String
  greeks : Option OptionGreeks
deriving DecidableEq, Repr

/-- The global portfolio state read by the risk checks: the balance hash
and the position hash. -/
structure Portfolio where
  balances : List (String × ℚ)
  positions : List (String × PositionRecord)

/-- `RiskService._calculate_total_value`: free USDT plus Σ quantity·avgPrice. -/
def calculate_total_value (port : Portfolio) : ℚ :=
  (lookupF port.balances "USDT").getD 0 +
    (port.positions.map (fun p => p.2.quantity * p.2.avg_price)).sum

/-- `RiskService._check_drawdown` as a function of the peak-value cell and
the current total value.  It returns the new peak, the recorded
`drawdown_pct` and the check result; `.error ()` models the uncaught
`ZeroDivisionError` Python raises when the stored peak is `0` and the
current value does not exceed it. -/
def check_drawdown (max_drawdown_pct : ℚ) (peak_value : Option ℚ)
    (current_value : ℚ) : Except Unit (ℚ × ℚ × RiskCheckResult) :=
  match peak_value with
  | none => .ok (current_value, 0, ⟨true, .emptyReason⟩)
  | some peak =>
    if peak < current_value then .ok (current_value, 0, ⟨true, .emptyReason⟩)
    else if peak = 0 then .error ()
    else
      let drawdown_pct := (peak - current_value) / peak
      if max_drawdown_pct < drawdown_pct then
        .ok (peak, drawdown_pct, ⟨false, .drawdownExceeded⟩)
      else
        .ok (peak, drawdown_pct, ⟨true, .emptyReason⟩)

/-- `RiskService._check_position_limits`. -/
def check_position_limits (max_position_ratio min_position_ratio : ℚ)
    (port : Portfolio) : RiskCheckResult :=
  let total_value := calculate_total_value port
  if total_value = 0 then ⟨true, .emptyReason⟩
  else
    let position_value :=
      (port.positions.map (fun p => p.2.quantity * p.2.avg_price)).sum
    let position_ratio := position_value / total_value
    if max_position_ratio < position_ratio then ⟨false, .positionRatioHigh⟩
    else if position_ratio < min_position_ratio then ⟨false, .positionRatioLow⟩
    else ⟨true, .emptyReason⟩

/-- `RiskService._simulate_order_impact`: single-name concentration and
gross-leverage check for a hypothetical order. -/
def simulate_order_impact (max_single_position_pct max_gross_leverage : ℚ)
    (port : Portfolio) (symbol : String) (side : Side) (quantity price : ℚ) :
    RiskCheckResult :=
  let current_qty := match lookupF port.positions symbol with
    | some p => p.quantity
    | none => 0
  let new_qty := match side with
    | .buy => current_qty + quantity
    | .sell => current_qty - quantity
  let total_value := calculate_total_value port
  if total_value = 0 then ⟨true, .emptyReason⟩
  else
    let new_position_value := new_qty * price
    let position_pct := new_position_value / total_value
    if max_single_position_pct < position_pct then ⟨false, .singleConcentration⟩
    else
      let current_gross_notional :=
        (port.positions.map (fun p => |p.2.quantity * p.2.avg_price|)).sum
      let order_notional := |quantity * price|
      let new_gross_notional := current_gross_notional + order_notional
      let new_leverage :=
        if 0 < total_value then new_gross_notional / total_value else 0
      if max_gross_leverage < new_leverage then ⟨false, .grossLeverage⟩
      else ⟨true, .withinSafeLimits⟩

/-- The position arithmetic of `RiskService._process_fill`: from the
previously stored position and one fill, the new `(quantity, avg_price)`
written back to the store. -/
def process_fill_position (current : Option PositionRecord) (side : Side)
    (fill_quantity fill_price : ℚ) : ℚ × ℚ :=
  let current_qty := match current with
    | some p => p.quantity
    | none => 0
  let current_avg := match current with
    | some p => p.avg_price
    | none => 0
  match side with
  | .buy =>
    let new_qty := current_qty + fill_quantity
    if 0 < new_qty then
      (new_qty, (current_qty * current_avg + fill_quantity * fill_price) / new_qty)
    else
      (new_qty, fill_price)
  | .sell => (current_qty - fill_quantity, current_avg)

/-- Oracle for the body of `RiskService._calculate_position_greeks` after
the symbol has been split into its four dash-separated parts: strike
parsing (`float(...)`), expiry parsing (`strptime`), the spot fetch and
the Black-Scholes evaluation are external/transcendental and appear as a
single function that may fail (`none` models the caught exception). -/
def GreeksOracle : Type :=
  String → String → String → String → PositionRecord → Option OptionGreeks

/-- `RiskService._calculate_position_greeks`: a symbol that does not split
into exactly four dash-separated parts yields `None`; otherwise the
oracle decides. -/
def calculate_position_greeks (oracle : GreeksOracle) (symbol : String)
    (position : PositionRecord) : Option OptionGreeks :=
  match pySplitChar '-' symbol with
  | [underlying, expiry, strike_str, option_type] =>
      oracle underlying expiry strike_str option_type position
  | _ => none

/-- The aggregated metrics accumulated by `RiskService._update_risk_metrics`. -/
structure RiskTotals where
  position_value : ℚ
  total_delta : ℚ
  total_gamma : ℚ
  total_vega : ℚ
  total_theta : ℚ
  total_rho : ℚ
deriving DecidableEq, Repr

/-- Pointwise sum of metric accumulators. -/
def addTotals (a b : RiskTotals) : RiskTotals :=
  ⟨a.position_value + b.position_value, a.total_delta + b.total_delta,
   a.total_gamma + b.total_gamma, a.total_vega + b.total_vega,
   a.total_theta + b.total_theta, a.total_rho + b.total_rho⟩

/-- The zero accumulator. -/
def zeroTotals : RiskTotals := ⟨0, 0, 0, 0, 0, 0⟩

/-- What one stored position adds to the accumulators in the body of the
`_update_risk_metrics` loop: a symbol containing `-C` or `-P` is treated
as an option (cached greeks first, else a computation attempt, else no
greek contribution); anything else contributes its quantity to delta
only. -/
def positionContribution (oracle : GreeksOracle) (symbol : String)
    (pos : PositionRecord) : RiskTotals :=
  let pos_value := pos.quantity * pos.avg_price
  if strContainsSub symbol "-C" || strContainsSub symbol "-P" then
    match pos.greeks with
    | some g =>
      ⟨pos_value, g.delta * pos.quantity, g.gamma * pos.quantity,
       g.vega * pos.quantity, g.theta * pos.quantity, g.rho * pos.quantity⟩
    | none =>
      match calculate_position_greeks oracle symbol pos with
      | some g =>
        ⟨pos_value, g.delta * pos.quantity, g.gamma * pos.quantity,
         g.vega * pos.quantity, g.theta * pos.quantity, g.rho * pos.quantity⟩
      | none => ⟨pos_value, 0, 0, 0, 0, 0⟩
  else ⟨pos_value, pos.quantity, 0, 0, 0, 0⟩

/-- Left-to-right accumulation over the stored positions, mirroring the
`for symbol, pos in positions.items()` loop. -/
def update_risk_metrics_aux (oracle : GreeksOracle) (acc : RiskTotals) :
    List (String × PositionRecord) → RiskTotals
  | [] => acc
  | (symbol, pos) :: rest =>
      update_risk_metrics_aux oracle
        (addTotals acc (positionContribution oracle symbol pos)) rest

/-- The Greeks/derived totals computed by `RiskService._update_risk_metrics`
from the stored positions. -/
def update_risk_metrics_totals (oracle : GreeksOracle)
    (positions : List (String × PositionRecord)) : RiskTotals :=
  update_risk_metrics_aux oracle zeroTotals positions

/-- `RiskService._infer_macro_state`: classify the (realized volatility,
sentiment) pair into a market regime and a score.  Missing inputs default
to `vol = 0.4`, `sentiment = 0`. -/
def infer_market_state (realized_vol : Option ℚ) (sentiment : Option ℚ) :
    String × ℚ :=
  let vol := realized_vol.getD 0.4
  let sent := sentiment.getD 0
  if 0.8 < vol ∧ sent < -0.7 then
    ("panic", min 1 ((vol - 0.8) + |sent|))
  else if 0.8 < vol ∧ 0.7 < sent then
    ("high_vol_bull", min 1 ((vol - 0.8) + sent))
  else if (vol ≤ 0.4 ∨ (0.4 < vol ∧ vol ≤ 0.8)) ∧ (0.3 < sent ∧ sent ≤ 0.7) then
    ("bull", min 1 (0.5 * vol + sent))
  else if ((0.4 < vol ∧ vol ≤ 0.8) ∨ 0.8 < vol) ∧ (-0.7 ≤ sent ∧ sent < -0.3) then
    ("bear", min 1 (vol + |sent|))
  else if vol ≤ 0.4 ∧ (-0.3 ≤ sent ∧ sent ≤ 0.3) then
    ("chop", min 1 (0.2 + vol))
  else ("unknown", 0.1)

/-! ## Portfolio store (portfolio_store.py)

The global position hash is an association list from symbol to the
stored JSON record. -/

/-- `PortfolioStateStore.update_position`: write a fresh record for the
symbol.  The record written by the source holds exactly the keys
`symbol, quantity, avg_price, unrealized_pnl, strategy_id, updated_at`;
in particular it never carries a `greeks` key, embedded as
`greeks := none`. -/
def update_position (store : List (String × PositionRecord)) (symbol : String)
    (quantity avg_price unrealized_pnl : ℚ) (strategy_id : Option String) :
    List (String × PositionRecord) :=
  setF store symbol
    { quantity := quantity, avg_price := avg_price,
      unrealized_pnl := unrealized_pnl, strategy_id := strategy_id,
      greeks := none }

/-- `PortfolioStateStore.get_position`. -/
def get_position (store : List (String × PositionRecord)) (symbol : String) :
    Option PositionRecord :=
  lookupF store symbol

/-- `PortfolioStateStore.update_position_greeks`: the source reads the
position, assigns the greeks into its local dict copy, then calls
`update_position` with quantity/avg_price/unrealized_pnl/strategy_id —
which writes a record without the greeks (the local assignment is
dropped). -/
def update_position_greeks (store : List (String × PositionRecord))
    (symbol : String) (greeks : OptionGreeks) :
    List (String × PositionRecord) :=
  match get_position store symbol with
  | none => store
  | some position =>
      update_position store symbol position.quantity position.avg_price
        position.unrealized_pnl position.strategy_id

/-! ## Strategy engine (engine.py) -/

/-- `StrategyEngine.OPTION_ACTIONS`. -/
def optionActions : List String :=
  ["buy_straddle", "sell_straddle", "buy_strangle", "sell_strangle"]

/-- An event published on the bus by `_process_intent`. -/
inductive PublishedEvent
  | execution (e : ExecutionCommandEvent)
  | order (o : OrderCommand)

/-- Whether a published event is an `ExecutionCommandEvent`. -/
def PublishedEvent.isExecution : PublishedEvent → Bool
  | .execution _ => true
  | .order _ => false

/-- Whether a published event is an `OrderCommand`. -/
def PublishedEvent.isOrder : PublishedEvent → Bool
  | .execution _ => false
  | .order _ => true

/-- `StrategyEngine._process_intent`, returning the list of
(stream, event) publications it performs.  `risk` is the outcome of the
`check_pre_order` call on this intent (`none` when no risk service is
attached, in which case the check is skipped).  A `None` direction
returns before anything is published; a rejection returns after the
check; otherwise option-structure actions go to `execution.command` and
everything else to `order.command` as a market order. -/
def process_intent (risk : Option RiskCheckResult)
    (intent : StrategyIntentEvent) : List (String × PublishedEvent) :=
  match intent.direction with
  | none => []
  | some dir =>
    let rejected := match risk with
      | some r => !r.approved
      | none => false
    if rejected then []
    else if optionActions.contains intent.action then
      [("execution.command", .execution
        { intent_id := intent.intent_id
          strategy_id := intent.strategy_id
          symbol := intent.symbol
          action := intent.action
          direction := some dir
          quantity := intent.quantity
          approved_by := if risk.isSome then "risk_service" else "engine"
          metadata := intent.metadata })]
    else
      [("order.command", .order
        { strategy_id := intent.strategy_id
          symbol := intent.symbol
          side := dir
          order_type := "market"
          quantity := intent.quantity
          price := metaNum? intent.metadata "reference_price"
          command := "create"
          metadata := ("intent_id", .mstr intent.intent_id) :: intent.metadata })]

/-! ## Option execution service (option_execution_service.py) -/

/-- Python `int(x)` for a float: truncation toward zero, exact on the
rational embedding. -/
def pyTrunc (q : ℚ) : ℤ := q.num.tdiv q.den

/-- `OptionExecutionService._format_option_symbol`:
`{assetBase}-{YYYYMMDD}-{intStrike}-{C|P}`. -/
def format_option_symbol (option : OptionChainData) : String :=
  let underlying_base := (pySplitChar '/' option.underlying).headD ""
  let expiry_str := strRemoveChar '-' option.expiry
  let strike_str := toString (pyTrunc option.strike)
  let type_str := if option.option_type == "call" then "C" else "P"
  underlying_base ++ "-" ++ expiry_str ++ "-" ++ strike_str ++ "-" ++ type_str

/-- `OptionExecutionService._find_atm_options`: entries of the nearest
expiry whose strike is the `len // 2` element of the ascending list of
distinct strikes. -/
def find_atm_options (vol_surface : VolatilitySurfaceEvent) :
    List OptionChainData :=
  if vol_surface.surface_data.isEmpty then []
  else
    match sortedUnique strLeB (vol_surface.surface_data.map (·.expiry)) with
    | [] => []
    | nearest_expiry :: _ =>
      let nearest_options :=
        vol_surface.surface_data.filter (fun o => o.expiry == nearest_expiry)
      let strikes := sortedUnique ratLeB (nearest_options.map (·.strike))
      if strikes.isEmpty then []
      else
        let atm_strike := strikes.getD (strikes.length / 2) 0
        nearest_options.filter (fun o => o.strike == atm_strike)

/-- The `OrderCommand` built for one ATM leg in `_execute_straddle`.
`command.quantity or command.metadata.get("quantity", 0.1)` means: the
command's quantity when non-zero, else the metadata quantity, else 0.1. -/
def mk_straddle_order (command : ExecutionCommandEvent) (side : Side)
    (option : OptionChainData) : OrderCommand :=
  { strategy_id := command.strategy_id
    symbol := format_option_symbol option
    side := side
    order_type := "limit"
    quantity :=
      if command.quantity == 0 then metaNumD command.metadata "quantity" (1/10)
      else command.quantity
    price := some option.last
    command := "create"
    metadata := [("intent_id", .mstr command.intent_id),
                 ("option_type", .mstr option.option_type),
                 ("strike", .mnum option.strike),
                 ("expiry", .mstr option.expiry),
                 ("strategy", .mstr "straddle")] }

/-- Outcome of `_execute_straddle`: the two warning-and-drop paths or the
list of published per-leg orders. -/
inductive StraddleOutcome
  | noSurface
  | noAtmOptions
  | orders (published : List OrderCommand)

/-- `OptionExecutionService._execute_straddle`, as a function of the
surface cache (underlying ↦ latest surface). -/
def execute_straddle (vol_surfaces : List (String × VolatilitySurfaceEvent))
    (command : ExecutionCommandEvent) (side : Side) : StraddleOutcome :=
  match lookupF vol_surfaces command.symbol with
  | none => .noSurface
  | some vol_surface =>
    let atm_options := find_atm_options vol_surface
    if atm_options.isEmpty then .noAtmOptions
    else .orders (atm_options.map (mk_straddle_order command side))

/-- Orders published on `order.command` for a straddle outcome. -/
def straddle_published : StraddleOutcome → List OrderCommand
  | .orders published => published
  | _ => []

/-- Whether the straddle path logged a warning and dropped the command. -/
def straddle_warned : StraddleOutcome → Bool
  | .noSurface => true
  | .noAtmOptions => true
  | .orders _ => false

/-! ## Message bus subscribe loop (redis_bus.py) -/

/-- One observable action of the `subscribe` consumer loop. -/
inductive BusAction (α : Type)
  | yielded (payload : α)
  | acked (message_id : String)
deriving DecidableEq, Repr

/-- Handling of one delivered stream message in `subscribe`: the raw
`data` field (defaulted to `"{}"` when missing), decoded by `decode`
(modelling `json.loads`); a successful decode yields the payload to the
consumer and then acknowledges, a failed decode acknowledges without
yielding. -/
def handle_delivered {α : Type} (decode : String → Option α)
    (message : String × Option String) : List (BusAction α) :=
  let raw := message.2.getD "{}"
  match decode raw with
  | some payload => [.yielded payload, .acked message.1]
  | none => [.acked message.1]

/-- The actions of the subscribe loop over one delivered batch, in
delivery order. -/
def subscribe_batch {α : Type} (decode : String → Option α)
    (messages : List (String × Option String)) : List (BusAction α) :=
  messages.flatMap (handle_delivered decode)

/-- The message id an action acknowledges, if any. -/
def BusAction.ackId {α : Type} : BusAction α → Option String
  | .yielded _ => none
  | .acked message_id => some message_id

/-- The payload an action yields, if any. -/
def BusAction.yieldedPayload {α : Type} : BusAction α → Option α
  | .yielded payload => some payload
  | .acked _ => none

/-! ## C1: the intent pipeline publishes exactly one event, or none -/

/-- C1.  For every `StrategyIntentEvent` processed by
`StrategyEngine._process_intent`: a `None` direction publishes nothing; a
risk rejection publishes nothing; otherwise, with the check approving (or
no risk service attached), an action in
{buy_straddle, sell_straddle, buy_strangle, sell_strangle} publishes
exactly one `ExecutionCommandEvent` on `execution.command` and no
`OrderCommand`, and any other action publishes exactly one `OrderCommand`
on `order.command` and no `ExecutionCommandEvent` — never both, never
neither. -/
theorem c1_intent_pipeline (risk : Option RiskCheckResult)
    (intent : StrategyIntentEvent) :
    (intent.direction = none → process_intent risk intent = []) ∧
    (∀ r, risk = some r → r.approved = false →
      process_intent risk intent = []) ∧
    (intent.direction ≠ none → (∀ r, risk = some r → r.approved = true) →
      ((optionActions.contains intent.action = true →
        (process_intent risk intent).map Prod.fst = ["execution.command"] ∧
        (process_intent risk intent).countP (fun p => p.2.isExecution) = 1 ∧
        (process_intent risk intent).countP (fun p => p.2.isOrder) = 0) ∧
       (optionActions.contains intent.action = false →
        (process_intent risk intent).map Prod.fst = ["order.command"] ∧
        (process_intent risk intent).countP (fun p => p.2.isOrder) = 1 ∧
        (process_intent risk intent).countP (fun p => p.2.isExecution) = 0))) := by
  refine ⟨?_, ?_, ?_⟩
  · intro h
    simp [process_intent, h]
  · rintro r rfl hr
    cases hd : intent.direction with
    | none => simp [process_intent, hd]
    | some dir => simp [process_intent, hd, hr]
  · intro hdir happ
    cases hd : intent.direction with
    | none => exact absurd hd hdir
    | some dir =>
      cases risk with
      | none =>
        constructor
        · intro hact
          have hact' : intent.action ∈ optionActions := by simpa using hact
          simp [process_intent, hd, hact', PublishedEvent.isExecution,
            PublishedEvent.isOrder]
        · intro hact
          have hact' : intent.action ∉ optionActions := by simpa using hact
          simp [process_intent, hd, hact', PublishedEvent.isExecution,
            PublishedEvent.isOrder]
      | some r =>
        have hr : r.approved = true := happ r rfl
        constructor
        · intro hact
          have hact' : intent.action ∈ optionActions := by simpa using hact
          simp [process_intent, hd, hr, hact', PublishedEvent.isExecution,
            PublishedEvent.isOrder]
        · intro hact
          have hact' : intent.action ∉ optionActions := by simpa using hact
          simp [process_intent, hd, hr, hact', PublishedEvent.isExecution,
            PublishedEvent.isOrder]

/-- A sample option-structure intent used to instantiate `c1_intent_pipeline`. -/
def c1Intent : StrategyIntentEvent :=
  { intent_id := "i1", strategy_id := "pq_vol", symbol := "BTC/USDT",
    intent_type := "open", action := "buy_straddle",
    direction := some .buy, quantity := 1, metadata := [] }

/-- Witness for C1: an approved buy-straddle intent publishes exactly one
execution command and no order command. -/
theorem c1_intent_pipeline_witness :
    c1Intent.direction ≠ none ∧
    (process_intent (some ⟨true, .allChecksPassed⟩) c1Intent).map Prod.fst =
      ["execution.command"] ∧
    (process_intent (some ⟨true, .allChecksPassed⟩) c1Intent).countP
      (fun p => p.2.isExecution) = 1 ∧
    (process_intent (some ⟨true, .allChecksPassed⟩) c1Intent).countP
      (fun p => p.2.isOrder) = 0 := by
  have h := ((c1_intent_pipeline (some ⟨true, .allChecksPassed⟩) c1Intent).2.2
    (by decide) (by rintro r hr; cases hr; rfl)).1 (by decide)
  exact ⟨by decide, h.1, h.2.1, h.2.2⟩

/-! ## C4: position arithmetic of `_process_fill` -/

/-- C4 counterexample.  A buy fill that leaves the position non-positive
does not use the weighted-average formula: buying 1 at price 20 into a
short position (quantity −2, avgPrice 10) stores avgPrice 20 (the fill
price), while the claimed formula `(q·avg + Δq·p)/(q+Δq)` yields 0. -/
theorem c4_weighted_average_counterexample :
    process_fill_position (some ⟨-2, 10, 0, none, none⟩) .buy 1 20 = (-1, 20) ∧
    ((-2 : ℚ) * 10 + 1 * 20) / (-2 + 1) = 0 ∧ (20 : ℚ) ≠ 0 := by
  refine ⟨?_, by norm_num, by norm_num⟩
  simp only [process_fill_position]
  norm_num

/-- C4 as amended.  A buy fill of Δq at price p takes the position from
(q, avg) to quantity q+Δq with average price `(q·avg + Δq·p)/(q+Δq)` when
q+Δq is positive, and to average price p (the fill price) otherwise; a
sell fill yields quantity q−Δq with the average price unchanged. -/
theorem c4_fill_arithmetic (q avg upnl : ℚ) (sid : Option String)
    (gk : Option OptionGreeks) (dq p : ℚ) :
    process_fill_position (some ⟨q, avg, upnl, sid, gk⟩) .buy dq p =
      (if 0 < q + dq then (q + dq, (q * avg + dq * p) / (q + dq))
       else (q + dq, p)) ∧
    process_fill_position (some ⟨q, avg, upnl, sid, gk⟩) .sell dq p =
      (q - dq, avg) := by
  constructor <;> simp [process_fill_position]

/-! ## C5: `update_position_greeks` fails to store the greeks back -/

/-- The option symbol used to exhibit the greeks store-back failure. -/
def c5Symbol : String := "BTC-20241229-40000-C"

/-- A one-position store: one option contract, quantity 1, average price
1000, no cached greeks. -/
def c5Store : List (String × PositionRecord) :=
  [(c5Symbol, ⟨1, 1000, 0, none, none⟩)]

/-- The greeks the risk service tries to store back. -/
def c5NewGreeks : OptionGreeks := ⟨1, 2, 3, 4, 5⟩

/-- C5 (code bug).  After `update_position_greeks(symbol, g)` the stored
position still has no greeks — `update_position` rewrites the record
without a greeks field, dropping the local assignment — although quantity
and average price are unchanged.  The claim (and the function's own
purpose) requires the subsequent `get_position` to return greeks `g`. -/
theorem c5_update_position_greeks_drops_greeks :
    get_position (update_position_greeks c5Store c5Symbol c5NewGreeks)
      c5Symbol = some ⟨1, 1000, 0, none, none⟩ ∧
    (get_position (update_position_greeks c5Store c5Symbol c5NewGreeks)
      c5Symbol).map (fun p => p.greeks) ≠ some (some c5NewGreeks) := by
  constructor <;> decide

/-! ## C6: the drawdown check divides by a zero peak -/

/-- C6 (code bug).  With a stored peak of 0 and a current total value of 0
(an empty portfolio at start-up), `_check_drawdown` evaluates
`(peak − current) / peak` with `peak = 0` and raises `ZeroDivisionError`
instead of reporting 0% drawdown: the check is not total. -/
theorem c6_drawdown_zero_peak_division_error :
    check_drawdown 0.2 (some 0) 0 = .error () := by
  simp [check_drawdown]

/-! ## C10: zero portfolio value approves the ratio and impact checks -/

/-- C10.  Whenever the computed total portfolio value is zero, both
`_check_position_limits` and `_simulate_order_impact` return approved on
their total-value guard, before any division by the total value. -/
theorem c10_zero_total_value_checks_approved
    (max_position_ratio min_position_ratio max_single_position_pct
      max_gross_leverage : ℚ) (port : Portfolio) (symbol : String)
    (side : Side) (quantity price : ℚ)
    (h : calculate_total_value port = 0) :
    check_position_limits max_position_ratio min_position_ratio port =
      ⟨true, .emptyReason⟩ ∧
    simulate_order_impact max_single_position_pct max_gross_leverage port
      symbol side quantity price = ⟨true, .emptyReason⟩ := by
  unfold check_position_limits simulate_order_impact
  simp [h]

/-! ## C7: the macro regime table -/

/-- Commuting the first two rows of an if-chain whose conditions cannot
hold together. -/
theorem if_swap {α : Type} (A B : Prop) [Decidable A] [Decidable B]
    (hAB : ¬(A ∧ B)) (a b x : α) :
    (if A then a else if B then b else x) =
      (if B then b else if A then a else x) := by
  by_cases hA : A <;> by_cases hB : B <;> simp [hA, hB]
  exact absurd ⟨hA, hB⟩ hAB

/-- The regime table exactly as the spec words it, rows in the spec's
order, with the spec's sentiment bands (B− is `sent ≤ −0.7`, b− is
`−0.7 < sent ≤ −0.3`): vol bands L ≤ 0.4 < M ≤ 0.8 < H.  This is the
claim-side reading, to be compared with `infer_market_state`. -/
def spec_regime_table (vol sent : ℚ) : String × ℚ :=
  if 0.8 < vol ∧ 0.7 < sent then ("high_vol_bull", min 1 ((vol - 0.8) + sent))
  else if 0.8 < vol ∧ sent ≤ -0.7 then ("panic", min 1 ((vol - 0.8) + |sent|))
  else if vol ≤ 0.8 ∧ (0.3 < sent ∧ sent ≤ 0.7) then
    ("bull", min 1 (0.5 * vol + sent))
  else if 0.4 < vol ∧ (-0.7 < sent ∧ sent ≤ -0.3) then
    ("bear", min 1 (vol + |sent|))
  else if vol ≤ 0.4 ∧ (-0.3 ≤ sent ∧ sent ≤ 0.3) then
    ("chop", min 1 (0.2 + vol))
  else ("unknown", 0.1)

/-- C7 counterexample.  At the band boundary vol = 0.9, sentiment = −0.7
the code classifies the sample as `bear` with score 1 (its very-bearish
band is the strict `sent < −0.7`), while the spec's table (B− is
`sent ≤ −0.7`) gives `panic` with score 0.8. -/
theorem c7_regime_boundary_counterexample :
    infer_market_state (some 0.9) (some (-0.7)) = ("bear", 1) ∧
    spec_regime_table 0.9 (-0.7) = ("panic", 0.8) ∧
    ("bear", (1 : ℚ)) ≠ ("panic", (0.8 : ℚ)) := by
  refine ⟨?_, ?_, by simp⟩
  · norm_num [infer_market_state, abs_of_pos, abs_of_neg]
  · norm_num [spec_regime_table, abs_of_pos, abs_of_neg]

/-- The regime table with the sentiment bands the code actually uses:
B− is `sent < −0.7` (strict) and b− is `−0.7 ≤ sent < −0.3`; all other
bands as in the spec. -/
def amended_regime_table (vol sent : ℚ) : String × ℚ :=
  if 0.8 < vol ∧ 0.7 < sent then ("high_vol_bull", min 1 ((vol - 0.8) + sent))
  else if 0.8 < vol ∧ sent < -0.7 then ("panic", min 1 ((vol - 0.8) + |sent|))
  else if vol ≤ 0.8 ∧ (0.3 < sent ∧ sent ≤ 0.7) then
    ("bull", min 1 (0.5 * vol + sent))
  else if 0.4 < vol ∧ (-0.7 ≤ sent ∧ sent < -0.3) then
    ("bear", min 1 (vol + |sent|))
  else if vol ≤ 0.4 ∧ (-0.3 ≤ sent ∧ sent ≤ 0.3) then
    ("chop", min 1 (0.2 + vol))
  else ("unknown", 0.1)

/-- C7 as amended.  For every (realized volatility, sentiment) pair the
classifier returns exactly the table with the very-bearish band strict
(`sent < −0.7`) and the bearish band `−0.7 ≤ sent < −0.3`; in particular
vol = 0.9, sentiment = −0.8 gives (panic, 0.9) and vol = 0.3,
sentiment = 0 gives (chop, 0.5). -/
theorem c7_regime_table_amended (vol sent : ℚ) :
    infer_market_state (some vol) (some sent) = amended_regime_table vol sent ∧
    infer_market_state (some 0.9) (some (-0.8)) = ("panic", 0.9) ∧
    infer_market_state (some 0.3) (some 0) = ("chop", 0.5) := by
  refine ⟨?_, ?_, ?_⟩
  · have h3 : (vol ≤ 0.4 ∨ (0.4 < vol ∧ vol ≤ 0.8)) ↔ vol ≤ 0.8 := by
      constructor
      · rintro (h | ⟨_, h⟩)
        · linarith
        · exact h
      · intro h
        by_cases h4 : vol ≤ 0.4
        · exact Or.inl h4
        · exact Or.inr ⟨lt_of_not_le h4, h⟩
    have h4 : ((0.4 < vol ∧ vol ≤ 0.8) ∨ 0.8 < vol) ↔ 0.4 < vol := by
      constructor
      · rintro (⟨h, _⟩ | h)
        · exact h
        · linarith
      · intro h
        by_cases h8 : vol ≤ 0.8
        · exact Or.inl ⟨h, h8⟩
        · exact Or.inr (lt_of_not_le h8)
    unfold infer_market_state amended_regime_table
    simp only [Option.getD_some, h3, h4]
    rw [if_swap _ _ (by rintro ⟨⟨_, hs⟩, ⟨_, hs'⟩⟩; linarith)]
  · norm_num [infer_market_state, abs_of_pos, abs_of_neg]
  · norm_num [infer_market_state]

/-! ## C9: every delivered bus message is acknowledged -/

/-- C9.  In the subscribe loop, the acknowledged ids over a delivered
batch are exactly the delivered message ids, in order (each message is
acknowledged exactly once); a message whose payload decodes is yielded to
the consumer and then acknowledged; a message whose payload fails to
decode is acknowledged without ever being yielded. -/
theorem c9_subscribe_acknowledges_all {α : Type} (decode : String → Option α)
    (messages : List (String × Option String)) :
    (subscribe_batch decode messages).filterMap BusAction.ackId =
      messages.map Prod.fst ∧
    (∀ mid raw, (mid, raw) ∈ messages →
      (∀ payload, decode (raw.getD "{}") = some payload →
        handle_delivered decode (mid, raw) =
          [.yielded payload, .acked mid]) ∧
      (decode (raw.getD "{}") = none →
        handle_delivered decode (mid, raw) = [.acked mid] ∧
        ∀ payload, BusAction.yielded payload ∉
          handle_delivered decode (mid, raw))) := by
  constructor
  · induction messages with
    | nil => simp [subscribe_batch]
    | cons m rest ih =>
      obtain ⟨mid, raw⟩ := m
      simp only [subscribe_batch, List.flatMap_cons, List.filterMap_append,
        List.map_cons]
      rw [show (rest.flatMap (handle_delivered decode)).filterMap
          BusAction.ackId = rest.map Prod.fst from ih]
      cases h : decode (raw.getD "{}") with
      | none => simp [handle_delivered, h, BusAction.ackId]
      | some payload => simp [handle_delivered, h, BusAction.ackId]
  · intro mid raw _
    constructor
    · intro payload h
      simp [handle_delivered, h]
    · intro h
      refine ⟨by simp [handle_delivered, h], ?_⟩
      intro payload hmem
      simp [handle_delivered, h] at hmem

/-- Witness for C9: a two-message batch, one well-formed and one
malformed payload; both are acknowledged, the malformed one is dropped. -/
theorem c9_subscribe_acknowledges_all_witness :
    (subscribe_batch (fun s => if s == "ok" then some 0 else none)
        [("1-1", some "ok"), ("1-2", some "bad")]).filterMap
        BusAction.ackId = ["1-1", "1-2"] ∧
    (("1-2", (some "bad" : Option String)) ∈
        [("1-1", some "ok"), ("1-2", some "bad")]) ∧
    handle_delivered (fun s => if s == "ok" then some 0 else none)
      ("1-2", some "bad") = [.acked "1-2"] := by
  have h := c9_subscribe_acknowledges_all
    (fun s => if s == "ok" then some (0 : ℕ) else none)
    [("1-1", some "ok"), ("1-2", some "bad")]
  refine ⟨h.1, by decide, ?_⟩
  exact ((h.2 "1-2" (some "bad") (by decide)).2 (by decide)).1

/-! ## C8: straddle with a missing or empty surface publishes nothing -/

/-- C8.  For every straddle execution command: if no volatility surface
is cached for the underlying, or the cached surface has an empty entry
list, then no `order.command` is published and a warning is logged. -/
theorem c8_empty_surface_no_orders
    (vol_surfaces : List (String × VolatilitySurfaceEvent))
    (command : ExecutionCommandEvent) (side : Side)
    (h : lookupF vol_surfaces command.symbol = none ∨
      ∃ vs, lookupF vol_surfaces command.symbol = some vs ∧
        vs.surface_data = []) :
    straddle_published (execute_straddle vol_surfaces command side) = [] ∧
    straddle_warned (execute_straddle vol_surfaces command side) = true := by
  rcases h with h | ⟨vs, h, hvs⟩
  · simp [execute_straddle, h, straddle_published, straddle_warned]
  · simp [execute_straddle, h, find_atm_options, hvs, straddle_published,
      straddle_warned]

/-- A straddle command used to instantiate the empty-surface paths. -/
def c8Cmd : ExecutionCommandEvent :=
  { intent_id := "i2", strategy_id := "s1", symbol := "BTC/USDT",
    action := "buy_straddle", direction := some .buy, quantity := 1,
    approved_by := "risk_service", metadata := [] }

/-- A cache holding an empty surface for the underlying. -/
def c8Surfaces : List (String × VolatilitySurfaceEvent) :=
  [("BTC/USDT", ⟨"BTC/USDT", []⟩)]

/-- Witness for C8: with no cached surface, and with a cached surface
whose entry list is empty, the straddle path publishes nothing and
warns. -/
theorem c8_empty_surface_no_orders_witness :
    (lookupF ([] : List (String × VolatilitySurfaceEvent)) c8Cmd.symbol =
      none) ∧
    straddle_published (execute_straddle [] c8Cmd .buy) = [] ∧
    straddle_warned (execute_straddle [] c8Cmd .buy) = true ∧
    (lookupF c8Surfaces c8Cmd.symbol = some ⟨"BTC/USDT", []⟩) ∧
    straddle_published (execute_straddle c8Surfaces c8Cmd .buy) = [] ∧
    straddle_warned (execute_straddle c8Surfaces c8Cmd .buy) = true := by
  have h1 : lookupF ([] : List (String × VolatilitySurfaceEvent))
      c8Cmd.symbol = none := rfl
  have h2 : lookupF c8Surfaces c8Cmd.symbol =
      some (⟨"BTC/USDT", []⟩ : VolatilitySurfaceEvent) := rfl
  have ha := c8_empty_surface_no_orders [] c8Cmd .buy (Or.inl h1)
  have hb := c8_empty_surface_no_orders c8Surfaces c8Cmd .buy
    (Or.inr ⟨⟨"BTC/USDT", []⟩, h2, rfl⟩)
  exact ⟨h1, ha.1, ha.2, h2, hb.1, hb.2⟩

/-! ## C3: portfolio delta aggregation -/

/-- Decimal-digit test on a character, by code point. -/
def isDigitCh (c : Char) : Bool := 48 ≤ c.toNat && c.toNat ≤ 57

/-- The claim-side option-symbol test: the symbol splits as
`{underlying}-{YYYYMMDD}-{strike}-{C|P}` (an eight-digit date field, a
numeric strike field, and a `C` or `P` type letter). -/
def parses_as_option_symbol (symbol : String) : Bool :=
  match pySplitChar '-' symbol with
  | [_, expiry, strike_str, option_type] =>
      (expiry.data.length == 8) && expiry.data.all isDigitCh &&
      !strike_str.data.isEmpty && strike_str.data.all isDigitCh &&
      (option_type == "C" || option_type == "P")
  | _ => false

/-- The delta the claim attributes to an option position: the cached
greeks if present, else the computed greeks, else zero. -/
def claim_position_delta (oracle : GreeksOracle) (symbol : String)
    (pos : PositionRecord) : ℚ :=
  match pos.greeks with
  | some g => g.delta
  | none =>
    match calculate_position_greeks oracle symbol pos with
    | some g => g.delta
    | none => 0

/-- The claim-side total delta: Σ(delta·quantity) over positions whose
symbol parses as an option, plus Σ(quantity) over all other positions. -/
def spec_total_delta (oracle : GreeksOracle)
    (positions : List (String × PositionRecord)) : ℚ :=
  (positions.map (fun p =>
    if parses_as_option_symbol p.1 then
      claim_position_delta oracle p.1 p.2 * p.2.quantity
    else p.2.quantity)).sum

/-- An oracle on which every greek computation fails (irrelevant to the
counterexample: the symbol below never reaches the oracle). -/
def c3Oracle : GreeksOracle := fun _ _ _ _ _ => none

/-- A store with a single perpetual-future position whose symbol contains
`-P` but does not parse as an option symbol. -/
def c3Positions : List (String × PositionRecord) :=
  [("BTC-PERP", ⟨2, 10, 0, none, none⟩)]

/-- C3 counterexample.  The code classifies by the substring test
`"-C" in symbol or "-P" in symbol`: the spot-like position `BTC-PERP`
(quantity 2, no greeks) is treated as an option whose greeks cannot be
computed and contributes 0 to totalDelta, while the claim's
parse-based classification makes it a non-option contributing its
quantity 2. -/
theorem c3_substring_classification_counterexample :
    (update_risk_metrics_totals c3Oracle c3Positions).total_delta = 0 ∧
    spec_total_delta c3Oracle c3Positions = 2 ∧ (0 : ℚ) ≠ 2 := by
  have hsub : (strContainsSub "BTC-PERP" "-C" ||
      strContainsSub "BTC-PERP" "-P") = true := by decide
  have hcalc : calculate_position_greeks c3Oracle "BTC-PERP"
      ⟨2, 10, 0, none, none⟩ = none := by decide
  have hparse : parses_as_option_symbol "BTC-PERP" = false := by decide
  refine ⟨?_, ?_, by norm_num⟩
  · simp [update_risk_metrics_totals, update_risk_metrics_aux, c3Positions,
      positionContribution, hsub, hcalc, addTotals, zeroTotals]
  · simp [spec_total_delta, c3Positions, hparse]

/-- The greeks the code attributes to a substring-classified option
position: cached first, else computed, else none. -/
def option_position_greeks (oracle : GreeksOracle) (symbol : String)
    (pos : PositionRecord) : Option OptionGreeks :=
  match pos.greeks with
  | some g => some g
  | none => calculate_position_greeks oracle symbol pos

/-- The substring classification the code uses for option positions. -/
def symbol_is_optionlike (symbol : String) : Bool :=
  strContainsSub symbol "-C" || strContainsSub symbol "-P"

/-- The amended-claim totals, stated sum-by-sum: positions whose symbol
contains `-C` or `-P` contribute each greek times quantity (cached
greeks first, else computed, else zero), all other positions contribute
their quantity to delta only. -/
def amended_risk_totals (oracle : GreeksOracle)
    (positions : List (String × PositionRecord)) : RiskTotals :=
  { position_value :=
      (positions.map (fun p => p.2.quantity * p.2.avg_price)).sum
    total_delta := (positions.map (fun p =>
      if symbol_is_optionlike p.1 then
        (((option_position_greeks oracle p.1 p.2).map
          (fun g => g.delta)).getD 0) * p.2.quantity
      else p.2.quantity)).sum
    total_gamma := (positions.map (fun p =>
      if symbol_is_optionlike p.1 then
        (((option_position_greeks oracle p.1 p.2).map
          (fun g => g.gamma)).getD 0) * p.2.quantity
      else 0)).sum
    total_vega := (positions.map (fun p =>
      if symbol_is_optionlike p.1 then
        (((option_position_greeks oracle p.1 p.2).map
          (fun g => g.vega)).getD 0) * p.2.quantity
      else 0)).sum
    total_theta := (positions.map (fun p =>
      if symbol_is_optionlike p.1 then
        (((option_position_greeks oracle p.1 p.2).map
          (fun g => g.theta)).getD 0) * p.2.quantity
      else 0)).sum
    total_rho := (positions.map (fun p =>
      if symbol_is_optionlike p.1 then
        (((option_position_greeks oracle p.1 p.2).map
          (fun g => g.rho)).getD 0) * p.2.quantity
      else 0)).sum }

theorem addTotals_zero (a : RiskTotals) : addTotals a zeroTotals = a := by
  simp [addTotals, zeroTotals]

theorem zero_addTotals (a : RiskTotals) : addTotals zeroTotals a = a := by
  simp [addTotals, zeroTotals]

theorem addTotals_assoc (a b c : RiskTotals) :
    addTotals (addTotals a b) c = addTotals a (addTotals b c) := by
  simp [addTotals, add_assoc]

theorem update_risk_metrics_aux_eq (oracle : GreeksOracle)
    (acc : RiskTotals) (l : List (String × PositionRecord)) :
    update_risk_metrics_aux oracle acc l =
      addTotals acc (l.foldr
        (fun p t => addTotals (positionContribution oracle p.1 p.2) t)
        zeroTotals) := by
  induction l generalizing acc with
  | nil => simp [update_risk_metrics_aux, addTotals_zero]
  | cons p rest ih =>
    obtain ⟨symbol, pos⟩ := p
    simp only [update_risk_metrics_aux, List.foldr_cons]
    rw [ih, addTotals_assoc]

/-- The per-position contribution, re-expressed through
`option_position_greeks` (a pure case-shuffle of the source's nested
matches). -/
theorem positionContribution_eq (oracle : GreeksOracle) (symbol : String)
    (pos : PositionRecord) :
    positionContribution oracle symbol pos =
      if symbol_is_optionlike symbol then
        match option_position_greeks oracle symbol pos with
        | some g =>
          ⟨pos.quantity * pos.avg_price, g.delta * pos.quantity,
           g.gamma * pos.quantity, g.vega * pos.quantity,
           g.theta * pos.quantity, g.rho * pos.quantity⟩
        | none => ⟨pos.quantity * pos.avg_price, 0, 0, 0, 0, 0⟩
      else ⟨pos.quantity * pos.avg_price, pos.quantity, 0, 0, 0, 0⟩ := by
  unfold positionContribution option_position_greeks symbol_is_optionlike
  cases h : pos.greeks with
  | some g => simp [h]
  | none =>
    cases hc : calculate_position_greeks oracle symbol pos <;> simp [h, hc]

/-- C3 as amended.  The totals computed by `_update_risk_metrics` equal,
sum by sum, the amended description: totalDelta is Σ(delta·quantity)
over positions whose symbol contains `-C` or `-P` (cached greeks first,
else computed greeks, else a zero contribution) plus Σ(quantity) over
all remaining positions, and the remaining positions contribute zero to
gamma, vega, theta and rho.  Exact ℚ arithmetic, so equality is exact. -/
theorem c3_delta_aggregation_amended (oracle : GreeksOracle)
    (positions : List (String × PositionRecord)) :
    update_risk_metrics_totals oracle positions =
      amended_risk_totals oracle positions := by
  unfold update_risk_metrics_totals
  rw [update_risk_metrics_aux_eq, zero_addTotals]
  induction positions with
  | nil => simp [amended_risk_totals, zeroTotals]
  | cons p rest ih =>
    obtain ⟨symbol, pos⟩ := p
    rw [List.foldr_cons, ih, positionContribution_eq]
    by_cases h : symbol_is_optionlike symbol
    · cases hg : option_position_greeks oracle symbol pos with
      | some g =>
        simp [amended_risk_totals, addTotals, h, hg]
      | none =>
        simp [amended_risk_totals, addTotals, h, hg]
    · simp [amended_risk_totals, addTotals, h]

/-! ## C2: straddle translation -/

/-- The nearest-expiry entries selected in `_find_atm_options`, for a
given nearest expiry `e`. -/
def nearest_options_of (vs : VolatilitySurfaceEvent) (e : String) :
    List OptionChainData :=
  vs.surface_data.filter (fun o => o.expiry == e)

/-- The ascending list of distinct strikes of the nearest-expiry
entries. -/
def strikes_of (vs : VolatilitySurfaceEvent) (e : String) : List ℚ :=
  sortedUnique ratLeB ((nearest_options_of vs e).map (fun o => o.strike))

/-- The ATM strike: the `len // 2` element of the ascending distinct
strikes. -/
def atm_strike_of (vs : VolatilitySurfaceEvent) (e : String) : ℚ :=
  (strikes_of vs e).getD ((strikes_of vs e).length / 2) 0

theorem find_atm_options_eq (vs : VolatilitySurfaceEvent)
    (hne : vs.surface_data ≠ []) (e : String) (rest : List String)
    (hsorted : sortedUnique strLeB (vs.surface_data.map (fun o => o.expiry)) =
      e :: rest) :
    find_atm_options vs =
      (nearest_options_of vs e).filter
        (fun o => o.strike == atm_strike_of vs e) := by
  have hempty : vs.surface_data.isEmpty = false :=
    List.isEmpty_eq_false.mpr hne
  have hmem_e : e ∈ vs.surface_data.map (fun o => o.expiry) :=
    (mem_sortedUnique _ _ _).mp (hsorted ▸ List.mem_cons_self e rest)
  obtain ⟨o1, ho1, ho1e⟩ := List.mem_map.mp hmem_e
  have ho1near : o1 ∈ nearest_options_of vs e :=
    List.mem_filter.mpr ⟨ho1, by simp [ho1e]⟩
  have hstrikes_ne : strikes_of vs e ≠ [] :=
    List.ne_nil_of_mem ((mem_sortedUnique _ _ _).mpr
      (List.mem_map_of_mem (fun o => o.strike) ho1near))
  have hstrikes_empty : (strikes_of vs e).isEmpty = false :=
    List.isEmpty_eq_false.mpr hstrikes_ne
  unfold find_atm_options
  rw [hempty]
  simp only [Bool.false_eq_true, if_false]
  rw [hsorted]
  show (let nearest_options := vs.surface_data.filter (fun o => o.expiry == e)
        let strikes := sortedUnique ratLeB (nearest_options.map (fun o => o.strike))
        if strikes.isEmpty then []
        else
          let atm_strike := strikes.getD (strikes.length / 2) 0
          nearest_options.filter (fun o => o.strike == atm_strike)) = _
  simp only
  rw [show sortedUnique ratLeB ((vs.surface_data.filter
      (fun o => o.expiry == e)).map (fun o => o.strike)) = strikes_of vs e
    from rfl]
  rw [hstrikes_empty]
  simp only [Bool.false_eq_true, if_false]
  rfl

/-- The ATM strike is one of the nearest-expiry strikes. -/
theorem atm_strike_of_mem (vs : VolatilitySurfaceEvent) (e : String)
    (h : strikes_of vs e ≠ []) : atm_strike_of vs e ∈ strikes_of vs e := by
  have hlen : (strikes_of vs e).length / 2 < (strikes_of vs e).length :=
    Nat.div_lt_self (List.length_pos.mpr h) one_lt_two
  unfold atm_strike_of
  rw [List.getD_eq_getElem _ _ hlen]
  exact List.getElem_mem hlen

/-- C2 as amended.  For every straddle execution command whose underlying
has a cached surface with a non-empty entry list: the service selects a
nearest expiry (a member of the surface's expiries that is ≤ all of
them), takes the `len // 2` element of the ascending distinct strikes of
that expiry as the ATM strike, and publishes exactly one `order.command`
per surface entry at that expiry and strike (a non-empty set of
entries), each with the commanded side, `orderType = limit`,
`price = leg.last`, symbol `{assetBase}-{YYYYMMDD}-{intStrike}-{C|P}`,
metadata carrying the intentId, and quantity equal to the command's
quantity when it is non-zero, else the metadata quantity (default 0.1). -/
theorem c2_straddle_translation_amended
    (vol_surfaces : List (String × VolatilitySurfaceEvent))
    (command : ExecutionCommandEvent) (side : Side)
    (vs : VolatilitySurfaceEvent)
    (hs : lookupF vol_surfaces command.symbol = some vs)
    (hne : vs.surface_data ≠ []) :
    ∃ nearest_expiry,
      nearest_expiry ∈ vs.surface_data.map (fun o => o.expiry) ∧
      (∀ o ∈ vs.surface_data, strLeB nearest_expiry o.expiry = true) ∧
      atm_strike_of vs nearest_expiry ∈ strikes_of vs nearest_expiry ∧
      execute_straddle vol_surfaces command side = .orders
        (((nearest_options_of vs nearest_expiry).filter
            (fun o => o.strike == atm_strike_of vs nearest_expiry)).map
          (mk_straddle_order command side)) ∧
      ((nearest_options_of vs nearest_expiry).filter
          (fun o => o.strike == atm_strike_of vs nearest_expiry)) ≠ [] ∧
      (∀ o : OptionChainData,
        (mk_straddle_order command side o).side = side ∧
        (mk_straddle_order command side o).order_type = "limit" ∧
        (mk_straddle_order command side o).price = some o.last ∧
        (mk_straddle_order command side o).quantity =
          (if command.quantity == 0 then
            metaNumD command.metadata "quantity" (1/10)
          else command.quantity) ∧
        (mk_straddle_order command side o).symbol = format_option_symbol o ∧
        lookupF (mk_straddle_order command side o).metadata "intent_id" =
          some (.mstr command.intent_id)) := by
  obtain ⟨o0, ho0⟩ := List.exists_mem_of_ne_nil _ hne
  have hsne : sortedUnique strLeB (vs.surface_data.map (fun o => o.expiry)) ≠
      [] :=
    List.ne_nil_of_mem ((mem_sortedUnique _ _ _).mpr
      (List.mem_map_of_mem (fun o => o.expiry) ho0))
  obtain ⟨e, rest, hsorted⟩ := List.exists_cons_of_ne_nil hsne
  have hmem_e : e ∈ vs.surface_data.map (fun o => o.expiry) :=
    (mem_sortedUnique _ _ _).mp (hsorted ▸ List.mem_cons_self e rest)
  obtain ⟨o1, ho1, ho1e⟩ := List.mem_map.mp hmem_e
  have ho1near : o1 ∈ nearest_options_of vs e :=
    List.mem_filter.mpr ⟨ho1, by simp [ho1e]⟩
  have hstrikes_ne : strikes_of vs e ≠ [] :=
    List.ne_nil_of_mem ((mem_sortedUnique _ _ _).mpr
      (List.mem_map_of_mem (fun o => o.strike) ho1near))
  have hatm_mem : atm_strike_of vs e ∈ strikes_of vs e :=
    atm_strike_of_mem vs e hstrikes_ne
  have hatm_ne : (nearest_options_of vs e).filter
      (fun o => o.strike == atm_strike_of vs e) ≠ [] := by
    obtain ⟨o2, ho2, ho2s⟩ := List.mem_map.mp
      ((mem_sortedUnique _ _ _).mp hatm_mem)
    exact List.ne_nil_of_mem
      (List.mem_filter.mpr ⟨ho2, by simp [ho2s]⟩)
  refine ⟨e, hmem_e, ?_, hatm_mem, ?_, hatm_ne, ?_⟩
  · intro o ho
    exact sortLe_head_le strLeB strLeB_trans strLeB_total _ e rest hsorted
      o.expiry ((mem_pyDedup _ _).mpr
        (List.mem_map_of_mem (fun o => o.expiry) ho))
  · unfold execute_straddle
    rw [hs]
    simp only
    rw [find_atm_options_eq vs hne e rest hsorted]
    rw [List.isEmpty_eq_false.mpr hatm_ne]
    simp only [Bool.false_eq_true, if_false]
  · intro o
    refine ⟨rfl, rfl, rfl, rfl, rfl, ?_⟩
    simp [mk_straddle_order, lookupF]

/-- The ATM call of the sample surface. -/
def c2Call : OptionChainData := ⟨"BTC/USDT", 40000, "2024-12-29", "call", 1000⟩

/-- The ATM put of the sample surface. -/
def c2Put : OptionChainData := ⟨"BTC/USDT", 40000, "2024-12-29", "put", 1000⟩

/-- A sample one-strike surface for `BTC/USDT`. -/
def c2Vs : VolatilitySurfaceEvent := ⟨"BTC/USDT", [c2Call, c2Put]⟩

/-- The surface cache holding the sample surface. -/
def c2Surfaces : List (String × VolatilitySurfaceEvent) := [("BTC/USDT", c2Vs)]

/-- A straddle command with the (default) quantity 0 and a metadata
quantity of 5. -/
def c2CmdZero : ExecutionCommandEvent :=
  { intent_id := "i1", strategy_id := "s1", symbol := "BTC/USDT",
    action := "buy_straddle", direction := some .buy, quantity := 0,
    approved_by := "risk_service", metadata := [("quantity", .mnum 5)] }

/-- C2 counterexample.  `command.quantity or metadata.get("quantity", 0.1)`
falls back to the metadata for a zero command quantity: with
`command.quantity = 0` and metadata quantity 5, both published legs carry
quantity 5 ≠ 0, so the published quantity is not the command's
quantity. -/
theorem c2_quantity_fallback_counterexample :
    (straddle_published (execute_straddle c2Surfaces c2CmdZero .buy)).map
      (fun o => o.quantity) = [5, 5] ∧
    c2CmdZero.quantity = 0 ∧ (5 : ℚ) ≠ 0 := by
  refine ⟨by decide, rfl, by norm_num⟩

/-- A straddle command with a genuine quantity. -/
def c2Cmd : ExecutionCommandEvent :=
  { intent_id := "i1", strategy_id := "s1", symbol := "BTC/USDT",
    action := "buy_straddle", direction := some .buy, quantity := 1,
    approved_by := "risk_service", metadata := [] }

/-- Witness for C2: the sample surface and command satisfy the
hypotheses, and the conclusion holds for them. -/
theorem c2_straddle_translation_amended_witness :
    lookupF c2Surfaces c2Cmd.symbol = some c2Vs ∧ c2Vs.surface_data ≠ [] ∧
    (∃ nearest_expiry,
      nearest_expiry ∈ c2Vs.surface_data.map (fun o => o.expiry) ∧
      (∀ o ∈ c2Vs.surface_data, strLeB nearest_expiry o.expiry = true) ∧
      atm_strike_of c2Vs nearest_expiry ∈ strikes_of c2Vs nearest_expiry ∧
      execute_straddle c2Surfaces c2Cmd .buy = .orders
        (((nearest_options_of c2Vs nearest_expiry).filter
            (fun o => o.strike == atm_strike_of c2Vs nearest_expiry)).map
          (mk_straddle_order c2Cmd .buy)) ∧
      ((nearest_options_of c2Vs nearest_expiry).filter
          (fun o => o.strike == atm_strike_of c2Vs nearest_expiry)) ≠ [] ∧
      (∀ o : OptionChainData,
        (mk_straddle_order c2Cmd .buy o).side = .buy ∧
        (mk_straddle_order c2Cmd .buy o).order_type = "limit" ∧
        (mk_straddle_order c2Cmd .buy o).price = some o.last ∧
        (mk_straddle_order c2Cmd .buy o).quantity =
          (if c2Cmd.quantity == 0 then
            metaNumD c2Cmd.metadata "quantity" (1/10)
          else c2Cmd.quantity) ∧
        (mk_straddle_order c2Cmd .buy o).symbol = format_option_symbol o ∧
        lookupF (mk_straddle_order c2Cmd .buy o).metadata "intent_id" =
          some (.mstr c2Cmd.intent_id))) := by
  refine ⟨by decide, by decide, ?_⟩
  exact c2_straddle_translation_amended c2Surfaces c2Cmd .buy c2Vs
    (by decide) (by decide)

/-- An empty portfolio (zero free USDT, no positions). -/
def c10Port : Portfolio := ⟨[("USDT", 0)], []⟩

/-- Witness for C10: the empty portfolio has total value 0 and both
checks approve on it. -/
theorem c10_zero_total_value_checks_approved_witness :
    calculate_total_value c10Port = 0 ∧
    check_position_limits 0.8 0.1 c10Port = ⟨true, .emptyReason⟩ ∧
    simulate_order_impact 0.3 3 c10Port "BTC/USDT" .buy 1 100 =
      ⟨true, .emptyReason⟩ := by
  have h : calculate_total_value c10Port = 0 := by
    simp [calculate_total_value, c10Port, lookupF]
  have h2 := c10_zero_total_value_checks_approved 0.8 0.1 0.3 3 c10Port
    "BTC/USDT" .buy 1 100 h
  exact ⟨h, h2.1, h2.2⟩
